/-
Verification of the robo-valentine alias-resolution core.

This file gives a shallow embedding, in Lean 4, of the catalog data model,
the data importer (src/utils/data/import-data.ts), the query normalisation
and three-strategy resolver cascade (src/commands/fd.ts), and the
per-character fuzzy-index cache (src/utils/discord/fuse-cache.ts) of the
robo-valentine Discord bot, together with theorems settling the frozen
claims about that code.

Modelling conventions:
* JavaScript strings are modelled as Lean `String` (`List Char` data),
  restricted to the ASCII behaviour of `toUpperCase`, `trim`, `\w` and `\s`.
* The SQLite tables are modelled as Lean lists kept in insertion order;
  `findOne` / `findAll` / `find?` return rows in that retrieval order,
  matching SQLite rowid enumeration of the freshly bulk-inserted tables.
* `bulkCreate` on a table with a unique (composite) key fails exactly when
  the inserted batch repeats a key, matching the unique indexes declared in
  database-tables.ts (the tables are cleared first, so only batch-internal
  duplicates can violate the indexes).
* The two external libraries invoked by the resolver - `RegExp.test` of the
  JS runtime and `Fuse.search` of fuse.js - are opaque collaborators; they
  are modelled as parameters (`RegexTestFn`, `FuseSearchFn`) of the
  resolver, so every theorem about cascade structure holds for any
  behaviour of those libraries.  Closed witnesses instantiate them with
  small concrete functions.
* Thrown JS strings become `Except String`; `sequelize.transaction`
  becomes rollback-on-error.
-/
import Mathlib

set_option autoImplicit false

deriving instance DecidableEq for Except

namespace RoboVal

/-! ## JavaScript string primitives (ASCII model) -/

/-- The ASCII whitespace characters matched by the JS regex class `\s`
(space, tab, newline, carriage return, vertical tab, form feed). -/
def isJsWhitespace (c : Char) : Bool :=
  c = ' ' || c = '\t' || c = '\n' || c = '\r' || c = Char.ofNat 11 || c = Char.ofNat 12

/-- Model of JS `String.toUpperCase`, restricted to ASCII letters. -/
def jsToUpper (s : String) : String :=
  String.mk (s.data.map Char.toUpper)

/-- Model of JS `String.trim`: drop leading and trailing whitespace. -/
def jsTrim (s : String) : String :=
  String.mk (((s.data.dropWhile isJsWhitespace).reverse.dropWhile isJsWhitespace).reverse)

/-- Model of JS `String.startsWith`, via the character data. -/
def jsStartsWith (s pre : String) : Bool :=
  pre.data.isPrefixOf s.data

/-- Model of JS `String.endsWith`, via the character data. -/
def jsEndsWith (s suf : String) : Bool :=
  suf.data.reverse.isPrefixOf s.data.reverse

/-- Model of JS `s.substring(a, b)`: clamp both indices to the length, swap them
when out of order, and return the characters in between. -/
def jsSubstring (s : String) (a b : Nat) : String :=
  let n := s.data.length
  let x := min a n
  let y := min b n
  String.mk ((s.data.take (max x y)).drop (min x y))

/-- Model of JS `s.split(sep)` for a single-character separator: note that
splitting the empty string yields `[""]`, exactly as in JS. -/
def jsSplitChar (sep : Char) (l : List Char) : List (List Char) :=
  match l with
  | [] => [[]]
  | c :: rest =>
    if c = sep then
      [] :: jsSplitChar sep rest
    else
      match jsSplitChar sep rest with
      | h :: t => (c :: h) :: t
      | [] => [[c]]

/-- Split a string on newline characters, JS `split('\n')` semantics. -/
def jsSplitNl (s : String) : List String :=
  (jsSplitChar '\n' s.data).map String.mk

/-! ## The query normalisation of fd.ts -/

/-- The character whitelist of `sanitise` (fd.ts): the JS classes `\w`
(ASCII letters, digits, underscore) and `\s`, plus the characters
`[ ] . - , ' + ~`. -/
def isWhitelisted (c : Char) : Bool :=
  c.isAlphanum || c = '_' || isJsWhitespace c ||
  c = '[' || c = ']' || c = '.' || c = '-' || c = ',' ||
  c = Char.ofNat 39 || c = '+' || c = '~'

/-- First replace of `sanitise`, the whitelist strip: delete every
character outside the whitelist. -/
def stripNonWhitelist (l : List Char) : List Char :=
  l.filter isWhitelisted

/-- Second replace of `sanitise`, the whitespace collapse: every maximal run of two or
more whitespace characters becomes a single space; a lone whitespace
character is left unchanged.  The flag records whether we are inside a run
whose replacement space has already been emitted. -/
def collapseWsAux : Bool → List Char → List Char
  | _, [] => []
  | true, c :: rest =>
    if isJsWhitespace c then collapseWsAux true rest
    else c :: collapseWsAux false rest
  | false, c :: rest =>
    if isJsWhitespace c then
      match rest with
      | [] => [c]
      | d :: _ =>
        if isJsWhitespace d then ' ' :: collapseWsAux true rest
        else c :: collapseWsAux false rest
    else c :: collapseWsAux false rest

def collapseWsRuns (l : List Char) : List Char :=
  collapseWsAux false l

/-- Function `sanitise` of fd.ts: strip non-whitelisted characters, collapse
whitespace runs of length at least two to one space, truncate to 100
characters (`substring(0, 100)`). -/
def sanitise (s : String) : String :=
  String.mk (((collapseWsRuns (stripNonWhitelist s.data))).take 100)

/-- The full normalisation the fd command applies to the raw move query
before any lookup (fd.ts execute):
`sanitise(rawMove.toUpperCase().trim())`. -/
def normalizeQuery (s : String) : String :=
  sanitise (jsTrim (jsToUpper s))

/-! ## Data model: sheet rows and catalog tables

The frame-data attribute columns of a move row (Guard, Damage, Properties,
Meter, On Hit, On Block, Startup, Active, Recovery, Hitstun, Blockstun,
Hitstop, On Pushblock, Footer, Thumbnail URL, Footer URL) are carried
through the import verbatim and play no role in any claim proved here, so
the records keep only the fields the importer and resolver inspect. -/

structure CharacterRow where
  Name : String
  PrettyName : String
  Colour : String
deriving DecidableEq, Repr

structure MacroRow where
  Key : String
  Value : String
deriving DecidableEq, Repr

/-- A row of one character's frame-data sheet. -/
structure MoveRow where
  MoveName : String
  Aliases : String
deriving DecidableEq, Repr

/-- A row of the Move table ((Character, Move Name) unique composite key). -/
structure MoveRec where
  Character : String
  MoveName : String
deriving DecidableEq, Repr

/-- A row of the SimpleAlias table ((Character, Alias) unique composite key). -/
structure SimpleAliasRow where
  Character : String
  Alias : String
  MoveName : String
deriving DecidableEq, Repr

/-- A row of the RegexAlias table ((Character, Pattern) unique composite key). -/
structure RegexAliasRow where
  Character : String
  Pattern : String
  MoveName : String
deriving DecidableEq, Repr

/-- The five SQLite tables, each as a list of rows in insertion order. -/
structure Catalog where
  characters : List CharacterRow
  macros : List MacroRow
  moves : List MoveRec
  simpleAliases : List SimpleAliasRow
  regexAliases : List RegexAliasRow
deriving DecidableEq, Repr

def Catalog.empty : Catalog := ⟨[], [], [], [], []⟩

/-- The Google Sheets document: the Characters sheet, the Macros sheet, and
one frame-data sheet per character, addressed by title. -/
structure Doc where
  charactersSheet : List CharacterRow
  macrosSheet : List MacroRow
  moveSheets : List (String × List MoveRow)
deriving DecidableEq, Repr

/-- Lookup `doc.sheetsByTitle[title]`. -/
def Doc.sheetByTitle (d : Doc) (t : String) : Option (List MoveRow) :=
  (d.moveSheets.find? (fun p => p.1 = t)).map (fun p => p.2)

/-! ## The data importer (import-data.ts) -/

/-- import-data.ts `checkDuplicateCharacter`. -/
def checkDuplicateCharacter (data : List CharacterRow) (characterName : String) :
    Except String Unit :=
  if data.any (fun c => c.Name = characterName) then
    .error ("Duplicate character detected: " ++ characterName)
  else .ok ()

/-- import-data.ts `checkDuplicateMacro`. -/
def checkDuplicateMacroKey (data : List MacroRow) (macroKey : String) :
    Except String Unit :=
  if data.any (fun m => m.Key = macroKey) then
    .error ("Duplicate macro detected: " ++ macroKey)
  else .ok ()

/-- import-data.ts `checkDuplicateMove`: scoped to one character. -/
def checkDuplicateMove (data : List MoveRec) (characterName moveName : String) :
    Except String Unit :=
  if data.any (fun m => m.Character = characterName && m.MoveName = moveName) then
    .error ("Duplicate move detected: " ++ characterName ++ " " ++ moveName)
  else .ok ()

/-- import-data.ts `checkDuplicateSimpleAlias`: scoped to one character
(the predicate tests `a.Character == characterName && a.Alias == alias`). -/
def checkDuplicateSimpleAlias (data : List SimpleAliasRow)
    (characterName aliasName moveName : String) : Except String Unit :=
  if data.any (fun a => a.Character = characterName && a.Alias = aliasName) then
    .error ("Duplicate move alias detected: " ++ characterName ++ " " ++
      aliasName ++ " (" ++ moveName ++ ")")
  else .ok ()

/-- import-data.ts `checkDuplicateRegexAlias`.  Faithful to the source: the
predicate is `data.some((r) => r.Pattern == pattern)` - the `characterName`
parameter is used only in the error message, not in the match, so the check
rejects a repeated pattern anywhere in the batch, across characters. -/
def checkDuplicateRegexAlias (data : List RegexAliasRow)
    (characterName pattern moveName : String) : Except String Unit :=
  if data.any (fun r => r.Pattern = pattern) then
    .error ("Duplicate regex alias detected: " ++ characterName ++ " " ++
      pattern ++ " (" ++ moveName ++ ")")
  else .ok ()

/-- Model of `Model.bulkCreate(batch)` against a freshly cleared table whose unique
(possibly composite) key is `key`: SQLite rejects the insert exactly when
the batch repeats a key (database-tables.ts declares unique indexes on
Name, Key, (Character, Move Name), (Character, Alias) and
(Character, Pattern) respectively). -/
def bulkCreateUnique {α κ : Type} [DecidableEq κ] (key : α → κ)
    (batch : List α) (tableName : String) : Except String (List α) :=
  if (batch.map key).Nodup then .ok batch
  else .error ("Unique constraint violation inserting into " ++ tableName)

/-- The row loop of import-data.ts `importCharacters` (lines 96-103):
blank-name check, in-batch duplicate check, accumulate. -/
def importCharactersLoop (acc : List CharacterRow) :
    List CharacterRow → Except String (List CharacterRow)
  | [] => .ok acc
  | row :: rest =>
    if row.Name = "" then
      .error "Found a blank or undefined character name"
    else do
      checkDuplicateCharacter acc row.Name
      importCharactersLoop (acc ++ [row]) rest

/-- The row loop of import-data.ts `importMacros` (lines 117-124). -/
def importMacrosLoop (acc : List MacroRow) :
    List MacroRow → Except String (List MacroRow)
  | [] => .ok acc
  | row :: rest =>
    if row.Key = "" then
      .error "Found a blank or undefined macro name"
    else do
      checkDuplicateMacroKey acc row.Key
      importMacrosLoop (acc ++ [row]) rest

/-- A token delimited by a leading and a trailing `/` is a regex alias
(import-data.ts lines 172 and 207). -/
def isRegexToken (t : String) : Bool :=
  jsStartsWith t "/" && jsEndsWith t "/"

/-- import-data.ts lines 168-172: the newline-split, trimmed alias tokens
that are not regex-delimited. -/
def simpleAliasTokens (aliasesField : String) : List String :=
  ((jsSplitNl aliasesField).map jsTrim).filter (fun a => !(isRegexToken a))

/-- import-data.ts lines 203-208: the newline-split, trimmed regex-delimited
tokens with their delimiters stripped (`substring(1, length - 1)`). -/
def regexAliasTokens (aliasesField : String) : List String :=
  (((jsSplitNl aliasesField).map jsTrim).filter isRegexToken).map
    (fun p => jsSubstring p 1 (p.data.length - 1))

/-- import-data.ts lines 182-189: register each newline-separated value of
a macro as a separate simple alias, each subject to the duplicate check. -/
def expandMacroValues (c m : String) (values : List String)
    (acc : List SimpleAliasRow) : Except String (List SimpleAliasRow) :=
  match values with
  | [] => .ok acc
  | v :: rest => do
    checkDuplicateSimpleAlias acc c v m
    expandMacroValues c m rest (acc ++ [⟨c, v, m⟩])

/-- import-data.ts lines 173-201: process the simple alias tokens of one
move; a token starting with `MACRO_` is looked up in the Macro table
(populated earlier in the same import) and expanded; an undefined macro
reference fails the import; other tokens are registered directly, each
subject to the duplicate check. -/
def processSimpleTokens (macros : List MacroRow) (c m : String)
    (tokens : List String) (acc : List SimpleAliasRow) :
    Except String (List SimpleAliasRow) :=
  match tokens with
  | [] => .ok acc
  | tok :: rest =>
    if jsStartsWith tok "MACRO_" then
      match macros.find? (fun r => r.Key = tok) with
      | some mac => do
        let acc2 ← expandMacroValues c m (jsSplitNl mac.Value) acc
        processSimpleTokens macros c m rest acc2
      | none => .error ("Found undefined macro: " ++ tok)
    else do
      checkDuplicateSimpleAlias acc c tok m
      processSimpleTokens macros c m rest (acc ++ [⟨c, tok, m⟩])

/-- import-data.ts lines 209-217: register the regex alias tokens of one
move, each subject to `checkDuplicateRegexAlias`. -/
def processRegexTokens (c m : String) (pats : List String)
    (acc : List RegexAliasRow) : Except String (List RegexAliasRow) :=
  match pats with
  | [] => .ok acc
  | p :: rest => do
    checkDuplicateRegexAlias acc c p m
    processRegexTokens c m rest (acc ++ [⟨c, p, m⟩])

/-- import-data.ts lines 149-218: process the move rows of one character:
blank-name check, duplicate-move check, push the move, push the move's own
name as a simple alias for itself WITHOUT any duplicate check (lines
159-166), then the simple/macro tokens, then the regex tokens. -/
def processMoveRows (macros : List MacroRow) (c : String)
    (rows : List MoveRow) (mAcc : List MoveRec) (sAcc : List SimpleAliasRow)
    (rAcc : List RegexAliasRow) :
    Except String (List MoveRec × List SimpleAliasRow × List RegexAliasRow) :=
  match rows with
  | [] => .ok (mAcc, sAcc, rAcc)
  | row :: rest =>
    if row.MoveName = "" then
      .error ("Found a blank or undefined move name for character " ++ c)
    else do
      checkDuplicateMove mAcc c row.MoveName
      let mAcc2 := mAcc ++ [⟨c, row.MoveName⟩]
      let selfAliased := sAcc ++ [⟨c, row.MoveName, row.MoveName⟩]
      let sAcc2 ← processSimpleTokens macros c row.MoveName
        (simpleAliasTokens row.Aliases) selfAliased
      let rAcc2 ← processRegexTokens c row.MoveName
        (regexAliasTokens row.Aliases) rAcc
      processMoveRows macros c rest mAcc2 sAcc2 rAcc2

/-- import-data.ts lines 140-219: iterate the Characters sheet, fetch each
character's frame-data sheet by title (a missing sheet throws, as the JS
dereference of an undefined sheet does) and process its move rows. -/
def processCharacterSheets (d : Doc) (macros : List MacroRow)
    (charRows : List CharacterRow) (mAcc : List MoveRec)
    (sAcc : List SimpleAliasRow) (rAcc : List RegexAliasRow) :
    Except String (List MoveRec × List SimpleAliasRow × List RegexAliasRow) :=
  match charRows with
  | [] => .ok (mAcc, sAcc, rAcc)
  | ch :: rest =>
    if ch.Name = "" then
      .error "Found a blank or undefined character name"
    else
      match d.sheetByTitle ch.Name with
      | none => .error ("Cannot read the frame data sheet for " ++ ch.Name)
      | some rows => do
        let (mAcc2, sAcc2, rAcc2) ← processMoveRows macros ch.Name rows mAcc sAcc rAcc
        processCharacterSheets d macros rest mAcc2 sAcc2 rAcc2

/-- import-data.ts `importMovesAndAliases`: build the Move, SimpleAlias and
RegexAlias batches, then bulk insert each against its unique index. -/
def importMovesAndAliases (d : Doc) (macros : List MacroRow) :
    Except String (List MoveRec × List SimpleAliasRow × List RegexAliasRow) := do
  let (m0, s0, r0) ← processCharacterSheets d macros d.charactersSheet [] [] []
  let moves ← bulkCreateUnique (fun m => (m.Character, m.MoveName)) m0 "Moves"
  let simples ← bulkCreateUnique (fun r => (r.Character, r.Alias)) s0 "SimpleAliases"
  let regexes ← bulkCreateUnique (fun r => (r.Character, r.Pattern)) r0 "RegexAliases"
  return (moves, simples, regexes)

/-- The body of the `sequelize.transaction` callback in import-data.ts
`importData` (lines 68-84): clear every table, then repopulate from the
sheet - characters, then macros, then moves and aliases (each loop
followed by its `bulkCreate` against the table's unique index). -/
def buildTransaction (d : Doc) : Except String Catalog := do
  let chars0 ← importCharactersLoop [] d.charactersSheet
  let chars ← bulkCreateUnique (fun c => c.Name) chars0 "Characters"
  let macros0 ← importMacrosLoop [] d.macrosSheet
  let macros ← bulkCreateUnique (fun m => m.Key) macros0 "Macros"
  let (moves, simples, regexes) ← importMovesAndAliases d macros
  return ⟨chars, macros, moves, simples, regexes⟩

/-- import-data.ts `importData`: the transaction commits the rebuilt
catalog on success and rolls every table back to its previous contents
when any step inside throws (`sequelize.transaction` semantics; the
/download handler relies on this, replying "Database state has not been
modified" on error). -/
def importData (d : Doc) (current : Catalog) : Catalog × Option String :=
  match buildTransaction d with
  | .ok fresh => (fresh, none)
  | .error e => (current, some e)

/-! ## The resolver (fd.ts) and the fuzzy-index cache (fuse-cache.ts) -/

/-- fd.ts `SearchStrategy`. -/
inductive SearchStrategy
  | simple
  | regex
  | fuzzy
  | notFound
deriving DecidableEq, Repr

/-- fd.ts `SearchResult`. -/
structure SearchResult where
  canonicalName : Option String
  strategy : SearchStrategy
  resultString : String
deriving DecidableEq, Repr

/-- Model of `new RegExp(pattern).test(text)` - the JS regex engine, an external
collaborator of the resolver, modelled as an arbitrary total predicate. -/
def RegexTestFn : Type := String → String → Bool

/-- Model of `fuse.search(query)` over the rows a Fuse index was built from - the
fuse.js ranking engine, an external collaborator, modelled as an arbitrary
function returning the ranked rows (best first). -/
def FuseSearchFn : Type := List SimpleAliasRow → String → List SimpleAliasRow

/-- The process state the resolver touches: the catalog plus the shared
per-character Fuse cache of fuse-cache.ts (`fuseCache : Map<string, Fuse>`,
modelled by the list of rows each cached index was built from). -/
structure SysState where
  catalog : Catalog
  fuseCache : List (String × List SimpleAliasRow)
deriving DecidableEq, Repr

/-- fuse-cache.ts `getFuse`: return the cached index for the character if
present; otherwise build one from the character's current SimpleAlias rows
(`findAll` in retrieval order) and cache it. -/
def getFuse (st : SysState) (c : String) :
    List SimpleAliasRow × SysState :=
  match st.fuseCache.find? (fun p => p.1 = c) with
  | some p => (p.2, st)
  | none =>
    let entries := st.catalog.simpleAliases.filter (fun r => r.Character = c)
    (entries, ⟨st.catalog, st.fuseCache ++ [(c, entries)]⟩)

/-- fuse-cache.ts `clearAllCache` ("Clear the entire cache (used on data
reload)"): empty the fuse cache. -/
def clearAllCache (st : SysState) : SysState :=
  ⟨st.catalog, []⟩

/-- fd.ts `simpleAliasSearch`: `SimpleAlias.findOne` by (Character, Alias)
equality - the first matching row in retrieval order. -/
def simpleAliasSearch (cat : Catalog) (c q : String) : Option SearchResult :=
  match cat.simpleAliases.find? (fun r => r.Character = c && r.Alias = q) with
  | some row =>
    some ⟨some row.MoveName, .simple,
      "Simple alias match for " ++ q ++ " -> " ++ row.MoveName ++ "."⟩
  | none => none

/-- fd.ts `regexAliasSearch`: fetch all RegexAlias rows for the character
(retrieval order), take the first whose pattern matches the query under
the regex engine.  Multiple matching patterns are possible; first wins. -/
def regexAliasSearch (rt : RegexTestFn) (cat : Catalog) (c q : String) :
    Option SearchResult :=
  let rows := cat.regexAliases.filter (fun r => r.Character = c)
  match rows.find? (fun r => rt r.Pattern q) with
  | some row =>
    some ⟨some row.MoveName, .regex,
      "Regex alias match for " ++ q ++ " matching " ++ row.Pattern ++
      " -> " ++ row.MoveName ++ "."⟩
  | none => none

/-- fd.ts `fuzzyAliasSearch`: get the (possibly cached) Fuse index for the
character and take the top-ranked search result, if any. -/
def fuzzyAliasSearch (fs : FuseSearchFn) (st : SysState) (c q : String) :
    Option SearchResult × SysState :=
  let (entries, st2) := getFuse st c
  match fs entries q with
  | [] => (none, st2)
  | top :: _ =>
    (some ⟨some top.MoveName, .fuzzy,
      "Fuzzy alias match for " ++ q ++ " -> " ++ top.Alias ++ " -> " ++
      top.MoveName ++ "."⟩, st2)

/-- fd.ts `findCanonicalMoveName`: the three-strategy cascade in strict
order - simple, then regex, then fuzzy - first success wins; all three
failing yields the NotFound result as ordinary data. -/
def findCanonicalMoveName (rt : RegexTestFn) (fs : FuseSearchFn)
    (st : SysState) (c q : String) : SearchResult × SysState :=
  match simpleAliasSearch st.catalog c q with
  | some r => (r, st)
  | none =>
    match regexAliasSearch rt st.catalog c q with
    | some r => (r, st)
    | none =>
      match fuzzyAliasSearch fs st c q with
      | (some r, st2) => (r, st2)
      | (none, st2) =>
        (⟨none, .notFound, "No match via any strategy"⟩, st2)

/-- fd.ts `fetchMove`: look the canonical move up in the Move table; a miss
after a successful alias match is thrown as a hard error ("Failed to find
move that should have been guaranteed"). -/
def fetchMove (cat : Catalog) (c name : String) : Except String MoveRec :=
  match cat.moves.find? (fun m => m.Character = c && m.MoveName = name) with
  | some mv => .ok mv
  | none =>
    .error ("Failed to find move that should have been guaranteed: " ++
      c ++ " " ++ name)

/-- The outcome of the fd command's resolution phase. -/
inductive FdOutcome where
  | noMatch (trace : String)
  | move (mv : MoveRec) (res : SearchResult)
deriving DecidableEq, Repr

/-- fd.ts execute, lines 309-337: run the cascade; a NotFound result is
returned as ordinary data (a failure reply, nothing thrown); a successful
alias match is followed by `fetchMove`, which throws when the canonical
move is missing from the Move table. -/
def resolveAndFetch (rt : RegexTestFn) (fs : FuseSearchFn) (st : SysState)
    (c q : String) : Except String (FdOutcome × SysState) :=
  let (sr, st2) := findCanonicalMoveName rt fs st c q
  match sr.canonicalName with
  | none => .ok (.noMatch sr.resultString, st2)
  | some name => (fetchMove st2.catalog c name).map (fun mv => (.move mv sr, st2))

/-- fd.ts execute, lines 279 and 298: the raw option strings are
normalised before the cascade runs - the character by `sanitise`, the
move query by `sanitise(raw.toUpperCase().trim())`. -/
def resolveQuery (rt : RegexTestFn) (fs : FuseSearchFn) (st : SysState)
    (rawCharacter rawMove : String) : SearchResult × SysState :=
  findCanonicalMoveName rt fs st (sanitise rawCharacter) (normalizeQuery rawMove)

/-- The data-reload path at the level of the whole process state
(/download command and startup): `importData()` replaces the catalog
inside its transaction; `buildAllEmbeds()` clears only the embed cache.
No code path in the repository invokes fuse-cache.ts `clearAllCache` - it
is exported but has no caller - so the fuse cache is carried over
untouched across a catalog replace. -/
def importDataSys (d : Doc) (st : SysState) : SysState × Option String :=
  let (cat, err) := importData d st.catalog
  (⟨cat, st.fuseCache⟩, err)

/-! ### Concrete instances of the external collaborators, for closed
witness computations. -/

/-- A regex engine instance: the pattern matches exactly itself. -/
def rtLiteral : RegexTestFn := fun p t => p == t

/-- A regex engine instance that never matches. -/
def rtNever : RegexTestFn := fun _ _ => false

/-- A fuse.js instance returning exact alias matches only (the real engine
ranks an exact match first; anything it additionally returns is ranked
below). -/
def fsExactOnly : FuseSearchFn := fun entries q =>
  entries.filter (fun r => r.Alias == q)

/-- A fuse.js instance that never finds anything. -/
def fsNever : FuseSearchFn := fun _ _ => []

/-! ## Specification-side normalisation pipelines (claims C5/C6)

`collapseSpec` is the declarative reading of the code's
`replace(/\s\s+/g, ' ')`: each maximal whitespace run of length at least
two becomes one space, a lone whitespace character stays.  `collapseEveryRun`
is the other reading of the spec words "collapse each run of whitespace to
a single space", where a lone tab also becomes a space. -/

def collapseSpec : List Char → List Char
  | [] => []
  | c :: rest =>
    if isJsWhitespace c then
      (if 2 ≤ (c :: rest.takeWhile isJsWhitespace).length then [' ']
       else c :: rest.takeWhile isJsWhitespace) ++
        collapseSpec (rest.dropWhile isJsWhitespace)
    else c :: collapseSpec rest
termination_by l => l.length
decreasing_by
  · exact Nat.lt_succ_of_le (List.dropWhile_sublist _).length_le
  · exact Nat.lt_succ_of_le (Nat.le_refl _)

def collapseEveryAux : Bool → List Char → List Char
  | _, [] => []
  | inRun, c :: rest =>
    if isJsWhitespace c then
      if inRun then collapseEveryAux true rest
      else ' ' :: collapseEveryAux true rest
    else c :: collapseEveryAux false rest

def collapseEveryRun (l : List Char) : List Char :=
  collapseEveryAux false l

/-- Truncation to 100 characters (`substring(0, 100)` applied last). -/
def truncate100 (s : String) : String :=
  String.mk (s.data.take 100)

/-- Modelled from the claim wording of C6: the pipeline "strip every
character outside the whitelist; collapse each run of whitespace to a
single space; uppercase; trim; truncate to 100 characters", in that
order. -/
def claimedNormalizeC6 (s : String) : String :=
  truncate100 (jsTrim (jsToUpper (String.mk (collapseEveryRun (stripNonWhitelist s.data)))))

/-- The amended pipeline: uppercase; trim; strip the non-whitelisted
characters; collapse each maximal run of TWO OR MORE whitespace characters
to a single space (a lone whitespace character is kept as-is); truncate to
100 characters. -/
def amendedNormalizeC6 (s : String) : String :=
  truncate100 (String.mk (collapseSpec (stripNonWhitelist (jsTrim (jsToUpper s)).data)))

/-! ## Fixtures: concrete documents, catalogs and process states used by
the closed theorems and witnesses below. -/

/-- A catalog holding the alias "BEAT EXTEND" for character VAL. -/
def catBeatExtend : Catalog :=
  ⟨[⟨"VAL", "Valentine", "#AAAAAA"⟩], [], [⟨"VAL", "BEAT EXTEND"⟩],
   [⟨"VAL", "BEAT EXTEND", "BEAT EXTEND"⟩], []⟩

/-- A source document whose VAL sheet repeats the move name 2LK, so that
the import fails at `checkDuplicateMove`. -/
def docDupMove : Doc :=
  ⟨[⟨"VAL", "Valentine", "#AAAAAA"⟩], [],
   [("VAL", [⟨"2LK", "KICK"⟩, ⟨"2LK", "KICK2"⟩])]⟩

/-- A document in which the move JAB references the macro MACRO_5LP with
value "5LP\nS.LP". -/
def docMacroGood : Doc :=
  ⟨[⟨"VAL", "Valentine", "#AAAAAA"⟩], [⟨"MACRO_5LP", "5LP\nS.LP"⟩],
   [("VAL", [⟨"JAB", "MACRO_5LP"⟩])]⟩

/-- The catalog `docMacroGood` imports to. -/
def catMacroGood : Catalog :=
  ⟨[⟨"VAL", "Valentine", "#AAAAAA"⟩], [⟨"MACRO_5LP", "5LP\nS.LP"⟩],
   [⟨"VAL", "JAB"⟩],
   [⟨"VAL", "JAB", "JAB"⟩, ⟨"VAL", "5LP", "JAB"⟩, ⟨"VAL", "S.LP", "JAB"⟩],
   []⟩

/-- Document `docMacroGood` with the Macros sheet empty: the macro reference is
undefined. -/
def docMacroUndefined : Doc :=
  ⟨[⟨"VAL", "Valentine", "#AAAAAA"⟩], [],
   [("VAL", [⟨"JAB", "MACRO_5LP"⟩])]⟩

/-- Document `docMacroGood` with an explicit alias 5LP listed before the macro
reference, so the macro-expanded value 5LP collides in-batch. -/
def docMacroDupValue : Doc :=
  ⟨[⟨"VAL", "Valentine", "#AAAAAA"⟩], [⟨"MACRO_5LP", "5LP\nS.LP"⟩],
   [("VAL", [⟨"JAB", "5LP\nMACRO_5LP"⟩])]⟩

/-- Two characters, each defining the same pattern alias X+ once; no
character repeats a pattern, so the batch satisfies the (Character,
Pattern) composite unique key declared in database-tables.ts. -/
def docCrossPattern : Doc :=
  ⟨[⟨"ANNIE", "Annie", "#111111"⟩, ⟨"BELLA", "Cerebella", "#222222"⟩], [],
   [("ANNIE", [⟨"TAUNT", "/X+/"⟩]), ("BELLA", [⟨"GRAB", "/X+/"⟩])]⟩

/-- A batch in which the explicit alias "MOVE B" of the earlier move
MOVE A equals the canonical name of the later move MOVE B of the same
character. -/
def docSelfAliasCollision : Doc :=
  ⟨[⟨"VAL", "Valentine", "#AAAAAA"⟩], [],
   [("VAL", [⟨"MOVE A", "MOVE B"⟩, ⟨"MOVE B", "OTHER"⟩])]⟩

/-- The catalog before the re-import: VAL's move SWORD carries the simple
alias "OLD ALIAS". -/
def catOld : Catalog :=
  ⟨[⟨"VAL", "Valentine", "#AAAAAA"⟩], [], [⟨"VAL", "SWORD"⟩],
   [⟨"VAL", "SWORD", "SWORD"⟩, ⟨"VAL", "OLD ALIAS", "SWORD"⟩], []⟩

/-- The source document that produced `catOld`. -/
def docOldCatalog : Doc :=
  ⟨[⟨"VAL", "Valentine", "#AAAAAA"⟩], [],
   [("VAL", [⟨"SWORD", "OLD ALIAS"⟩])]⟩

/-- The re-import source: "OLD ALIAS" is removed (replaced by SLASH). -/
def docNewCatalog : Doc :=
  ⟨[⟨"VAL", "Valentine", "#AAAAAA"⟩], [],
   [("VAL", [⟨"SWORD", "SLASH"⟩])]⟩

/-- The process state after a fuzzy query for VAL populated the Fuse
cache from `catOld`. -/
def stStale : SysState :=
  (getFuse ⟨catOld, []⟩ "VAL").2

/-- A catalog for exercising the cascade: no simple aliases, two regex
rows for VAL whose patterns A and B both exist, and the literal regex
engine `rtLiteral`. -/
def stCascade : SysState :=
  ⟨⟨[], [], [⟨"VAL", "M1"⟩, ⟨"VAL", "M2"⟩], [],
    [⟨"VAL", "A", "M1"⟩, ⟨"VAL", "B", "M2"⟩]⟩, []⟩

/-- A corrupted catalog: an alias row points at a move absent from the
Move table. -/
def stCorrupted : SysState :=
  ⟨⟨[], [], [], [⟨"VAL", "GHOST", "MISSING"⟩], []⟩, []⟩

/-- An empty process state. -/
def stEmptyCatalog : SysState := ⟨Catalog.empty, []⟩

/-- A character sheet whose move name "HI!" contains a character outside
the sanitiser whitelist; the import accepts it unchanged. -/
def docBangMove : Doc :=
  ⟨[⟨"VAL", "Valentine", "#AAAAAA"⟩], [],
   [("VAL", [⟨"HI!", "XYZ"⟩])]⟩

/-- The catalog `docBangMove` imports to. -/
def catBangMove : Catalog :=
  ⟨[⟨"VAL", "Valentine", "#AAAAAA"⟩], [], [⟨"VAL", "HI!"⟩],
   [⟨"VAL", "HI!", "HI!"⟩, ⟨"VAL", "XYZ", "HI!"⟩], []⟩

theorem collapseSpec_nil : collapseSpec [] = [] := by
  rw [collapseSpec]

theorem collapseSpec_cons_not_ws {c : Char} {rest : List Char}
    (h : ¬ isJsWhitespace c) :
    collapseSpec (c :: rest) = c :: collapseSpec rest := by
  rw [collapseSpec]
  simp [h]

theorem collapseSpec_cons_ws {c : Char} {rest : List Char}
    (h : isJsWhitespace c) :
    collapseSpec (c :: rest) =
      (if 2 ≤ (c :: rest.takeWhile isJsWhitespace).length then [' ']
       else c :: rest.takeWhile isJsWhitespace) ++
        collapseSpec (rest.dropWhile isJsWhitespace) := by
  rw [collapseSpec]
  simp [h]

/-- The scanning automaton of `sanitise` implements the declarative
maximal-run collapse: in normal mode it computes `collapseSpec`, and in
in-run mode (the replacement space already emitted) it computes
`collapseSpec` of the input with the remaining whitespace of the current
run discarded. -/
theorem collapseWsAux_eq_collapseSpec (b : Bool) (l : List Char) :
    collapseWsAux b l =
      (if b then collapseSpec (l.dropWhile isJsWhitespace) else collapseSpec l) := by
  have H : ∀ n (l : List Char), l.length ≤ n → ∀ b,
      collapseWsAux b l =
        (if b then collapseSpec (l.dropWhile isJsWhitespace) else collapseSpec l) := by
    intro n
    induction n with
    | zero =>
      intro l hl b
      have : l = [] := List.eq_nil_of_length_eq_zero (Nat.le_zero.mp hl)
      subst this
      cases b <;> simp [collapseWsAux, collapseSpec_nil]
    | succ n ih =>
      intro l hl b
      match l with
      | [] => cases b <;> simp [collapseWsAux, collapseSpec_nil]
      | c :: rest =>
        have hrest : rest.length ≤ n := Nat.le_of_succ_le_succ hl
        have ihF : collapseWsAux false rest = collapseSpec rest := by
          simpa using ih rest hrest false
        have ihT : collapseWsAux true rest =
            collapseSpec (rest.dropWhile isJsWhitespace) := by
          simpa using ih rest hrest true
        by_cases hc : isJsWhitespace c
        · cases b with
          | true =>
            have lhs : collapseWsAux true (c :: rest) = collapseWsAux true rest := by
              simp [collapseWsAux, hc]
            rw [lhs, ihT, if_pos rfl, List.dropWhile_cons, if_pos hc]
          | false =>
            match rest, ihF, ihT with
            | [], _, _ =>
              have lhs : collapseWsAux false [c] = [c] := by
                simp [collapseWsAux, hc]
              rw [lhs, if_neg (by simp), collapseSpec_cons_ws hc]
              have h1 : ¬ 2 ≤ (c :: List.takeWhile isJsWhitespace []).length := by
                simp [List.takeWhile_nil]
              rw [if_neg h1]
              simp [collapseSpec_nil]
            | d :: rest2, ihF, ihT =>
              by_cases hd : isJsWhitespace d
              · have lhs : collapseWsAux false (c :: d :: rest2) =
                    ' ' :: collapseWsAux true (d :: rest2) := by
                  simp [collapseWsAux, hc, hd]
                rw [lhs, ihT, if_neg (by simp), collapseSpec_cons_ws hc]
                have h2 : 2 ≤ (c :: (d :: rest2).takeWhile isJsWhitespace).length := by
                  rw [List.takeWhile_cons, if_pos hd]
                  simp only [List.length_cons]
                  omega
                rw [if_pos h2]
                rw [List.dropWhile_cons, if_pos hd]
                simp
              · have hdf : isJsWhitespace d = false := by
                  simpa using hd
                have lhs : collapseWsAux false (c :: d :: rest2) =
                    c :: collapseWsAux false (d :: rest2) := by
                  simp [collapseWsAux, hc, hdf]
                rw [lhs, ihF, if_neg (by simp), collapseSpec_cons_ws hc]
                have h1 : ¬ 2 ≤ (c :: (d :: rest2).takeWhile isJsWhitespace).length := by
                  rw [List.takeWhile_cons, if_neg (by simp [hdf])]
                  simp
                rw [if_neg h1]
                rw [List.takeWhile_cons, if_neg (by simp [hdf])]
                rw [List.dropWhile_cons, if_neg (by simp [hdf])]
                simp
        · have hcf : isJsWhitespace c = false := by
            simpa using hc
          cases b with
          | true =>
            have lhs : collapseWsAux true (c :: rest) =
                c :: collapseWsAux false rest := by
              simp [collapseWsAux, hcf]
            rw [lhs, ihF, if_pos rfl, List.dropWhile_cons, if_neg (by simp [hcf])]
            rw [collapseSpec_cons_not_ws hc]
          | false =>
            have lhs : collapseWsAux false (c :: rest) =
                c :: collapseWsAux false rest := by
              simp [collapseWsAux, hcf]
            rw [lhs, ihF, if_neg (by simp), collapseSpec_cons_not_ws hc]
  exact H l.length l (Nat.le_refl _) b

theorem collapseWsRuns_eq_collapseSpec (l : List Char) :
    collapseWsRuns l = collapseSpec l := by
  simpa using collapseWsAux_eq_collapseSpec false l

/-! ## Claim C6: the normalisation pipeline -/

/-- C6, counterexample.  The claim states the normalisation equals the
pipeline "strip; collapse each run of whitespace to a single space;
uppercase; trim; truncate to 100".  It does not: the code trims BEFORE
stripping (`sanitise(raw.toUpperCase().trim())`), so a trailing space
uncovered by stripping a non-whitelisted character survives - the raw
query "A !" normalises to "A " (trailing space) while the claimed pipeline
gives "A" - and the code's `replace(/\s\s+/g, ' ')` leaves a LONE
whitespace character unchanged, so "a\tb" normalises to "A\tB" while the
claimed pipeline gives "A B". -/
theorem c6_counterexample :
    normalizeQuery "A !" ≠ claimedNormalizeC6 "A !" ∧
    normalizeQuery "a\tb" ≠ claimedNormalizeC6 "a\tb" := by
  decide

/-- C6, amended: for every raw query string, the normalisation applied
before any lookup equals the pipeline: uppercase; trim; strip every
character outside the whitelist; collapse each maximal run of two or more
whitespace characters to a single space (lone whitespace kept as-is);
truncate to 100 characters - in that order. -/
theorem c6_normalization_pipeline (s : String) :
    normalizeQuery s = amendedNormalizeC6 s := by
  simp [normalizeQuery, amendedNormalizeC6, sanitise, truncate100,
    collapseWsRuns_eq_collapseSpec]

/-! ## Claim C5: spacing-insensitive lookup keys -/

/-- C5, counterexample.  The claim states that "beat   extend",
"beatextend" and "BEAT EXTEND" all normalise to equivalent lookup keys, so
each hits via the Simple strategy when an alias "BEAT EXTEND" exists.  In
fact the normalisation never deletes or inserts spaces between words:
"beatextend" normalises to "BEATEXTEND", a different key, and the Simple
strategy misses it even though the alias "BEAT EXTEND" is present. -/
theorem c5_counterexample :
    normalizeQuery "beatextend" ≠ normalizeQuery "BEAT EXTEND" ∧
    simpleAliasSearch catBeatExtend "VAL" (normalizeQuery "beatextend") = none := by
  decide

/-- C5, amended: "beat   extend" and "BEAT EXTEND" normalise to the same
key "BEAT EXTEND", so whenever a SimpleAlias row for that key exists for
the character, both raw queries hit via the Simple strategy; "beatextend"
instead normalises to the distinct key "BEATEXTEND" and is not served by
the Simple strategy (the spaceless form is only reachable through the
fuzzy fallback). -/
theorem c5_spaced_queries_hit_simple (cat : Catalog) (c : String)
    (row : SimpleAliasRow)
    (h : cat.simpleAliases.find?
      (fun r => r.Character = c && r.Alias = "BEAT EXTEND") = some row) :
    normalizeQuery "beat   extend" = "BEAT EXTEND" ∧
    normalizeQuery "BEAT EXTEND" = "BEAT EXTEND" ∧
    simpleAliasSearch cat c (normalizeQuery "beat   extend") =
      some ⟨some row.MoveName, .simple,
        "Simple alias match for " ++ "BEAT EXTEND" ++ " -> " ++ row.MoveName ++ "."⟩ ∧
    simpleAliasSearch cat c (normalizeQuery "BEAT EXTEND") =
      some ⟨some row.MoveName, .simple,
        "Simple alias match for " ++ "BEAT EXTEND" ++ " -> " ++ row.MoveName ++ "."⟩ ∧
    normalizeQuery "beatextend" = "BEATEXTEND" := by
  have h1 : normalizeQuery "beat   extend" = "BEAT EXTEND" := by decide
  have h2 : normalizeQuery "BEAT EXTEND" = "BEAT EXTEND" := by decide
  refine ⟨h1, h2, ?_, ?_, by decide⟩ <;>
    simp [h1, h2, simpleAliasSearch, h]

/-- Witness for `c5_spaced_queries_hit_simple` at the concrete catalog
`catBeatExtend`. -/
theorem c5_witness :
    normalizeQuery "beat   extend" = "BEAT EXTEND" ∧
    normalizeQuery "BEAT EXTEND" = "BEAT EXTEND" ∧
    simpleAliasSearch catBeatExtend "VAL" (normalizeQuery "beat   extend") =
      some ⟨some "BEAT EXTEND", .simple,
        "Simple alias match for " ++ "BEAT EXTEND" ++ " -> " ++ "BEAT EXTEND" ++ "."⟩ ∧
    simpleAliasSearch catBeatExtend "VAL" (normalizeQuery "BEAT EXTEND") =
      some ⟨some "BEAT EXTEND", .simple,
        "Simple alias match for " ++ "BEAT EXTEND" ++ " -> " ++ "BEAT EXTEND" ++ "."⟩ ∧
    normalizeQuery "beatextend" = "BEATEXTEND" :=
  c5_spaced_queries_hit_simple catBeatExtend "VAL"
    ⟨"VAL", "BEAT EXTEND", "BEAT EXTEND"⟩ (by decide)

/-! ## Claim C2: transactional all-or-nothing import -/

/-- C2: if any validation step of an import fails - blank or duplicate
character, macro, move, alias or pattern, an undefined macro reference, or
a unique-index violation at one of the bulk inserts - the transaction
rolls back and the Catalog Store retains exactly its previous contents. -/
theorem c2_failed_import_preserves_catalog (d : Doc) (current : Catalog)
    (h : (importData d current).2.isSome) :
    (importData d current).1 = current := by
  cases hb : buildTransaction d with
  | ok fresh =>
    exfalso
    unfold importData at h
    rw [hb] at h
    simp at h
  | error e =>
    unfold importData
    rw [hb]

/-- Witness for `c2_failed_import_preserves_catalog`: importing a sheet
with a duplicate move name fails and leaves the previous catalog intact. -/
theorem c2_witness :
    (importData docDupMove catBeatExtend).2.isSome ∧
    (importData docDupMove catBeatExtend).1 = catBeatExtend :=
  ⟨by decide, c2_failed_import_preserves_catalog docDupMove catBeatExtend (by decide)⟩

/-! ## Claim C7: macro expansion during import -/

/-- C7: a simple alias token starting with MACRO_ is expanded into one
simple alias per newline-separated macro value (here 5LP and S.LP, both
resolvable to JAB via the Simple strategy); an undefined macro reference
fails the whole import; each expanded value is subject to the same
in-batch duplicate check as an ordinary alias token. -/
theorem c7_macro_expansion :
    buildTransaction docMacroGood = .ok catMacroGood ∧
    simpleAliasSearch catMacroGood "VAL" "5LP" =
      some ⟨some "JAB", .simple,
        "Simple alias match for " ++ "5LP" ++ " -> " ++ "JAB" ++ "."⟩ ∧
    simpleAliasSearch catMacroGood "VAL" "S.LP" =
      some ⟨some "JAB", .simple,
        "Simple alias match for " ++ "S.LP" ++ " -> " ++ "JAB" ++ "."⟩ ∧
    buildTransaction docMacroUndefined =
      .error "Found undefined macro: MACRO_5LP" ∧
    buildTransaction docMacroDupValue =
      .error "Duplicate move alias detected: VAL 5LP (JAB)" := by
  decide

/-! ## Claim C8: scope of the duplicate-pattern rejection -/

/-- C8: the duplicate-pattern check of the importer is NOT scoped to one
character - `checkDuplicateRegexAlias` matches on the pattern alone - so a
batch in which two different characters each define the pattern X+ is
rejected, although it violates no (Character, Pattern) composite key.
This contradicts the per-character scope of every sibling duplicate check
and of the table's own unique index (code bug: the characterName
parameter is received but unused in the predicate). -/
theorem c8_cross_character_pattern_rejected :
    checkDuplicateRegexAlias [⟨"ANNIE", "X+", "TAUNT"⟩] "BELLA" "X+" "GRAB" =
      .error "Duplicate regex alias detected: BELLA X+ (GRAB)" ∧
    buildTransaction docCrossPattern =
      .error "Duplicate regex alias detected: BELLA X+ (GRAB)" ∧
    (([⟨"ANNIE", "X+", "TAUNT"⟩, ⟨"BELLA", "X+", "GRAB"⟩] :
        List RegexAliasRow).map (fun r => (r.Character, r.Pattern))).Nodup := by
  decide

/-! ## Claim C10: the self-alias skips the in-batch duplicate check -/

/-- C10: every explicit alias token and macro-expanded value passes
through `checkDuplicateSimpleAlias`, but the automatically registered
self-alias does not, so a batch in which a later move's canonical name
equals an alias already registered for an earlier move of the same
character passes the whole validation phase - the colliding rows
(VAL, MOVE B) -> MOVE A and (VAL, MOVE B) -> MOVE B both reach the bulk
insert, where only the table's unique index rejects them. -/
theorem c10_self_alias_skips_duplicate_check :
    processCharacterSheets docSelfAliasCollision []
        docSelfAliasCollision.charactersSheet [] [] [] =
      .ok ([⟨"VAL", "MOVE A"⟩, ⟨"VAL", "MOVE B"⟩],
           [⟨"VAL", "MOVE A", "MOVE A"⟩, ⟨"VAL", "MOVE B", "MOVE A"⟩,
            ⟨"VAL", "MOVE B", "MOVE B"⟩, ⟨"VAL", "OTHER", "MOVE B"⟩],
           []) ∧
    ¬ (([⟨"VAL", "MOVE A", "MOVE A"⟩, ⟨"VAL", "MOVE B", "MOVE A"⟩,
         ⟨"VAL", "MOVE B", "MOVE B"⟩, ⟨"VAL", "OTHER", "MOVE B"⟩] :
          List SimpleAliasRow).map (fun r => (r.Character, r.Alias))).Nodup ∧
    buildTransaction docSelfAliasCollision =
      .error "Unique constraint violation inserting into SimpleAliases" := by
  decide

/-! ## Claim C1: the fuzzy-index cache across a catalog replace -/

/-- C1: after a successful re-import that removes the simple alias
"OLD ALIAS", the per-character Fuse cache is NOT cleared - no code path
calls `clearAllCache` - so resolving the removed alias still queries the
index built before the import and returns a stale Fuzzy match
(canonical name SWORD) instead of NotFound.  The final conjunct shows the
contrast: with the documented invalidation (`clearAllCache`) applied, the
same resolution returns NotFound, as the claim requires. -/
theorem c1_stale_fuse_cache_after_reimport :
    buildTransaction docOldCatalog = .ok catOld ∧
    (importDataSys docNewCatalog stStale).2 = none ∧
    ((importDataSys docNewCatalog stStale).1.catalog.simpleAliases.all
      (fun r => !(r.Alias == "OLD ALIAS"))) = true ∧
    (importDataSys docNewCatalog stStale).1.fuseCache ≠ [] ∧
    ((findCanonicalMoveName rtNever fsExactOnly
        (importDataSys docNewCatalog stStale).1 "VAL" "OLD ALIAS").1).strategy =
      .fuzzy ∧
    ((findCanonicalMoveName rtNever fsExactOnly
        (importDataSys docNewCatalog stStale).1 "VAL" "OLD ALIAS").1).canonicalName =
      some "SWORD" ∧
    ((findCanonicalMoveName rtNever fsExactOnly
        (clearAllCache (importDataSys docNewCatalog stStale).1)
        "VAL" "OLD ALIAS").1).strategy = .notFound := by
  decide

/-! ## Shared inversion and lookup lemmas -/

theorem except_bind_ok {ε α β : Type} {x : Except ε α} {f : α → Except ε β}
    {b : β} (h : (x >>= f) = .ok b) : ∃ a, x = .ok a ∧ f a = .ok b := by
  cases x with
  | ok a => exact ⟨a, rfl, h⟩
  | error e => simp [Bind.bind, Except.bind] at h

theorem except_seq_ok {ε α : Type} {u : Except ε Unit} {rest : Except ε α}
    {out : α} (h : (u >>= fun _ => rest) = .ok out) : rest = .ok out := by
  cases u with
  | ok a => simpa [Bind.bind, Except.bind] using h
  | error e => simp [Bind.bind, Except.bind] at h

theorem bulkCreateUnique_ok {α κ : Type} [DecidableEq κ] {key : α → κ}
    {batch out : List α} {t : String}
    (h : bulkCreateUnique key batch t = .ok out) :
    out = batch ∧ (batch.map key).Nodup := by
  unfold bulkCreateUnique at h
  split at h
  · exact ⟨(Except.ok.injEq _ _ |>.mp h).symm, by assumption⟩
  · simp at h

/-- Running `find?` over a decomposition whose prefix all fails the predicate and
whose distinguished element satisfies it returns that element: the
first-match rule. -/
theorem find?_first_of_decomp {α : Type} (p : α → Bool) (pre suf : List α)
    (x : α) (hpre : ∀ a ∈ pre, p a = false) (hx : p x = true) :
    (pre ++ x :: suf).find? p = some x := by
  induction pre with
  | nil => simpa using List.find?_cons_of_pos suf hx
  | cons a t ih =>
    rw [List.cons_append, List.find?_cons_of_neg]
    · exact ih (fun b hb => hpre b (List.mem_cons_of_mem a hb))
    · simp [hpre a (List.mem_cons_self a t)]

theorem simpleAliasSearch_eq_some_of_find? {cat : Catalog} {c q : String}
    {row : SimpleAliasRow}
    (h : cat.simpleAliases.find? (fun r => r.Character = c && r.Alias = q) =
      some row) :
    simpleAliasSearch cat c q =
      some ⟨some row.MoveName, .simple,
        "Simple alias match for " ++ q ++ " -> " ++ row.MoveName ++ "."⟩ := by
  unfold simpleAliasSearch
  rw [h]

theorem simpleAliasSearch_eq_none_of_find? {cat : Catalog} {c q : String}
    (h : cat.simpleAliases.find? (fun r => r.Character = c && r.Alias = q) =
      none) :
    simpleAliasSearch cat c q = none := by
  unfold simpleAliasSearch
  rw [h]

theorem regexAliasSearch_eq_some_of_find? {rt : RegexTestFn} {cat : Catalog}
    {c q : String} {row : RegexAliasRow}
    (h : (cat.regexAliases.filter (fun r => r.Character = c)).find?
      (fun r => rt r.Pattern q) = some row) :
    regexAliasSearch rt cat c q =
      some ⟨some row.MoveName, .regex,
        "Regex alias match for " ++ q ++ " matching " ++ row.Pattern ++
        " -> " ++ row.MoveName ++ "."⟩ := by
  unfold regexAliasSearch
  simp only [h]

theorem regexAliasSearch_eq_none_of_find? {rt : RegexTestFn} {cat : Catalog}
    {c q : String}
    (h : (cat.regexAliases.filter (fun r => r.Character = c)).find?
      (fun r => rt r.Pattern q) = none) :
    regexAliasSearch rt cat c q = none := by
  unfold regexAliasSearch
  simp only [h]

/-! ## Claim C4: strict cascade order and the first-match rule -/

/-- C4: `findCanonicalMoveName` evaluates Simple, Regex, Fuzzy in that
strict order, first success wins, for any behaviour of the regex engine
and the fuzzy engine:
(a) whenever some SimpleAlias row equals (character, query), the result is
a Simple-strategy match (the regex strategy never runs);
(b) when no SimpleAlias row matches, the result is the FIRST RegexAlias
row in retrieval order whose pattern matches the query - even when
several later patterns also match;
(c) when additionally no pattern matches, the fuzzy index is consulted:
an empty fuzzy result yields NotFound, a non-empty one yields a Fuzzy
match on the top-ranked row. -/
theorem c4_cascade_order (rt : RegexTestFn) (fs : FuseSearchFn)
    (st : SysState) (c q : String) :
    ((∃ r ∈ st.catalog.simpleAliases, r.Character = c ∧ r.Alias = q) →
      ((findCanonicalMoveName rt fs st c q).1).strategy = .simple) ∧
    (∀ pre row suf,
      (∀ r ∈ st.catalog.simpleAliases, ¬ (r.Character = c ∧ r.Alias = q)) →
      st.catalog.regexAliases.filter (fun r => r.Character = c) =
        pre ++ row :: suf →
      (∀ r ∈ pre, rt r.Pattern q = false) →
      rt row.Pattern q = true →
      ((findCanonicalMoveName rt fs st c q).1).strategy = .regex ∧
      ((findCanonicalMoveName rt fs st c q).1).canonicalName =
        some row.MoveName) ∧
    ((∀ r ∈ st.catalog.simpleAliases, ¬ (r.Character = c ∧ r.Alias = q)) →
      (∀ r ∈ st.catalog.regexAliases.filter (fun r => r.Character = c),
        rt r.Pattern q = false) →
      ((fs (getFuse st c).1 q = [] →
          (findCanonicalMoveName rt fs st c q).1 =
            ⟨none, .notFound, "No match via any strategy"⟩) ∧
       (∀ top tl, fs (getFuse st c).1 q = top :: tl →
          ((findCanonicalMoveName rt fs st c q).1).strategy = .fuzzy ∧
          ((findCanonicalMoveName rt fs st c q).1).canonicalName =
            some top.MoveName))) := by
  refine ⟨?_, ?_, ?_⟩
  · rintro ⟨r, hr, hrc, hra⟩
    have hsome : (st.catalog.simpleAliases.find?
        (fun r => r.Character = c && r.Alias = q)).isSome := by
      rw [List.find?_isSome]
      exact ⟨r, hr, by simp [hrc, hra]⟩
    obtain ⟨row, hrow⟩ := Option.isSome_iff_exists.mp hsome
    unfold findCanonicalMoveName
    rw [simpleAliasSearch_eq_some_of_find? hrow]
  · intro pre row suf hnone hdecomp hpre hrow
    have hfindnone : st.catalog.simpleAliases.find?
        (fun r => r.Character = c && r.Alias = q) = none := by
      rw [List.find?_eq_none]
      intro x hx
      simp only [Bool.and_eq_true, decide_eq_true_eq, not_and]
      intro h1 h2
      exact hnone x hx ⟨h1, h2⟩
    have hfindregex : (st.catalog.regexAliases.filter
        (fun r => r.Character = c)).find? (fun r => rt r.Pattern q) =
        some row := by
      rw [hdecomp]
      exact find?_first_of_decomp _ pre suf row hpre hrow
    unfold findCanonicalMoveName
    rw [simpleAliasSearch_eq_none_of_find? hfindnone]
    rw [regexAliasSearch_eq_some_of_find? hfindregex]
    exact ⟨rfl, rfl⟩
  · intro hnone hnopat
    have hfindnone : st.catalog.simpleAliases.find?
        (fun r => r.Character = c && r.Alias = q) = none := by
      rw [List.find?_eq_none]
      intro x hx
      simp only [Bool.and_eq_true, decide_eq_true_eq, not_and]
      intro h1 h2
      exact hnone x hx ⟨h1, h2⟩
    have hfindregex : (st.catalog.regexAliases.filter
        (fun r => r.Character = c)).find? (fun r => rt r.Pattern q) =
        none := by
      rw [List.find?_eq_none]
      intro x hx
      simp [hnopat x hx]
    constructor
    · intro hfs
      unfold findCanonicalMoveName
      rw [simpleAliasSearch_eq_none_of_find? hfindnone]
      rw [regexAliasSearch_eq_none_of_find? hfindregex]
      unfold fuzzyAliasSearch
      rcases hg : getFuse st c with ⟨entries, st2⟩
      have hfs2 : fs entries q = [] := by rw [hg] at hfs; exact hfs
      simp only [hg, hfs2]
    · intro top tl hfs
      unfold findCanonicalMoveName
      rw [simpleAliasSearch_eq_none_of_find? hfindnone]
      rw [regexAliasSearch_eq_none_of_find? hfindregex]
      unfold fuzzyAliasSearch
      rcases hg : getFuse st c with ⟨entries, st2⟩
      have hfs2 : fs entries q = top :: tl := by rw [hg] at hfs; exact hfs
      simp [hg, hfs2]

/-- Witness for `c4_cascade_order`: with no simple alias for the query B,
the first (and here only) matching regex row in retrieval order wins; and
for the query Z, which no pattern matches, an empty fuzzy result produces
the NotFound outcome. -/
theorem c4_witness :
    (((findCanonicalMoveName rtLiteral fsNever stCascade "VAL" "B").1).strategy =
        .regex ∧
     ((findCanonicalMoveName rtLiteral fsNever stCascade "VAL" "B").1).canonicalName =
        some "M2") ∧
    (findCanonicalMoveName rtLiteral fsNever stCascade "VAL" "Z").1 =
      ⟨none, .notFound, "No match via any strategy"⟩ :=
  ⟨(c4_cascade_order rtLiteral fsNever stCascade "VAL" "B").2.1
      [⟨"VAL", "A", "M1"⟩] ⟨"VAL", "B", "M2"⟩ []
      (by decide) (by decide) (by decide) (by decide),
   ((c4_cascade_order rtLiteral fsNever stCascade "VAL" "Z").2.2
      (by decide) (by decide)).1 rfl⟩

/-! ## Claim C9: LookupMiss as data, IntegrityViolation as a thrown error -/

/-- Function `getFuse` never modifies the catalog: it only populates the cache. -/
theorem getFuse_catalog (st : SysState) (c : String) :
    (getFuse st c).2.catalog = st.catalog := by
  unfold getFuse
  cases h : st.fuseCache.find? (fun p => p.1 = c) <;> simp [h]

/-- The whole cascade never modifies the catalog: resolution is read-only
apart from the lazy fuzzy-index cache fill. -/
theorem findCanonicalMoveName_catalog (rt : RegexTestFn) (fs : FuseSearchFn)
    (st : SysState) (c q : String) :
    ((findCanonicalMoveName rt fs st c q).2).catalog = st.catalog := by
  unfold findCanonicalMoveName
  cases h1 : simpleAliasSearch st.catalog c q with
  | some r => rfl
  | none =>
    cases h2 : regexAliasSearch rt st.catalog c q with
    | some r => rfl
    | none =>
      unfold fuzzyAliasSearch
      rcases hg : getFuse st c with ⟨entries, st2⟩
      have hcat : st2.catalog = st.catalog := by
        rw [show st2 = (getFuse st c).2 from by rw [hg]]
        exact getFuse_catalog st c
      cases hf : fs entries q <;> simp [hg, hf, hcat]

/-- C9: a query with no match is not an error - the NotFound result is
returned as ordinary data (`Except.ok`) - while a successful alias match
whose canonical move is missing from the Move table is surfaced as a
thrown hard failure (`Except.error`), distinct from the NotFound result. -/
theorem c9_lookup_miss_vs_integrity_violation (rt : RegexTestFn)
    (fs : FuseSearchFn) (st : SysState) (c q : String) :
    (((findCanonicalMoveName rt fs st c q).1).canonicalName = none →
      resolveAndFetch rt fs st c q =
        .ok (.noMatch ((findCanonicalMoveName rt fs st c q).1).resultString,
             (findCanonicalMoveName rt fs st c q).2)) ∧
    (∀ name,
      ((findCanonicalMoveName rt fs st c q).1).canonicalName = some name →
      (∀ m ∈ st.catalog.moves, ¬ (m.Character = c ∧ m.MoveName = name)) →
      resolveAndFetch rt fs st c q =
        .error ("Failed to find move that should have been guaranteed: " ++
          c ++ " " ++ name)) := by
  constructor
  · intro h
    unfold resolveAndFetch
    rcases hf : findCanonicalMoveName rt fs st c q with ⟨sr, st2⟩
    rw [hf] at h
    simp only at h
    simp [h]
  · intro name h hmiss
    have hcat : ((findCanonicalMoveName rt fs st c q).2).catalog =
        st.catalog := findCanonicalMoveName_catalog rt fs st c q
    unfold resolveAndFetch
    rcases hf : findCanonicalMoveName rt fs st c q with ⟨sr, st2⟩
    rw [hf] at h hcat
    simp only at h hcat
    have hfetch : fetchMove st2.catalog c name =
        .error ("Failed to find move that should have been guaranteed: " ++
          c ++ " " ++ name) := by
      unfold fetchMove
      have hfind : st2.catalog.moves.find?
          (fun m => m.Character = c && m.MoveName = name) = none := by
        rw [List.find?_eq_none]
        intro x hx
        rw [hcat] at hx
        simp only [Bool.and_eq_true, decide_eq_true_eq, not_and]
        intro h1 h2
        exact hmiss x hx ⟨h1, h2⟩
      rw [hfind]
    simp [h, hfetch, Except.map]

/-- Witness for `c9_lookup_miss_vs_integrity_violation`: on the empty
catalog a miss comes back as `Except.ok` with the NotFound trace, and on
the corrupted catalog the successful alias match GHOST -> MISSING throws
the integrity error. -/
theorem c9_witness :
    resolveAndFetch rtNever fsNever stEmptyCatalog "VAL" "NOPE" =
      .ok (.noMatch "No match via any strategy",
           ⟨Catalog.empty, [("VAL", [])]⟩) ∧
    resolveAndFetch rtNever fsNever stCorrupted "VAL" "GHOST" =
      .error ("Failed to find move that should have been guaranteed: " ++
        "VAL" ++ " " ++ "MISSING") :=
  ⟨((c9_lookup_miss_vs_integrity_violation rtNever fsNever stEmptyCatalog
      "VAL" "NOPE").1 (by decide)).trans (by decide),
   (c9_lookup_miss_vs_integrity_violation rtNever fsNever stCorrupted
      "VAL" "GHOST").2 "MISSING" (by decide) (by decide)⟩

/-! ## Claim C3: the self-alias invariant

Structural facts about the importer needed for C3: the alias accumulator
only grows, every imported move's self-alias row is present in the final
SimpleAlias batch, and a successful import leaves the (Character, Alias)
keys duplicate-free (enforced by the unique index at the bulk insert). -/

theorem expandMacroValues_mem {c m : String} {values : List String}
    {acc out : List SimpleAliasRow}
    (h : expandMacroValues c m values acc = .ok out) :
    ∀ x ∈ acc, x ∈ out := by
  induction values generalizing acc with
  | nil =>
    unfold expandMacroValues at h
    cases h
    exact fun x hx => hx
  | cons v rest ih =>
    unfold expandMacroValues at h
    have h2 := except_seq_ok h
    intro x hx
    exact ih h2 x (List.mem_append_left _ hx)

theorem processSimpleTokens_mem {macros : List MacroRow} {c m : String}
    {tokens : List String} {acc out : List SimpleAliasRow}
    (h : processSimpleTokens macros c m tokens acc = .ok out) :
    ∀ x ∈ acc, x ∈ out := by
  induction tokens generalizing acc with
  | nil =>
    unfold processSimpleTokens at h
    cases h
    exact fun x hx => hx
  | cons tok rest ih =>
    unfold processSimpleTokens at h
    by_cases hm : jsStartsWith tok "MACRO_"
    · rw [if_pos hm] at h
      cases hmac : macros.find? (fun r => r.Key = tok) with
      | some mac =>
        rw [hmac] at h
        obtain ⟨acc2, hexp, hrest⟩ := except_bind_ok h
        intro x hx
        exact ih hrest x (expandMacroValues_mem hexp x hx)
      | none =>
        rw [hmac] at h
        cases h
    · rw [if_neg hm] at h
      have h2 := except_seq_ok h
      intro x hx
      exact ih h2 x (List.mem_append_left _ hx)

theorem processMoveRows_self_mem {macros : List MacroRow} {c : String}
    {rows : List MoveRow} {mAcc : List MoveRec} {sAcc : List SimpleAliasRow}
    {rAcc : List RegexAliasRow} {m' : List MoveRec}
    {s' : List SimpleAliasRow} {r' : List RegexAliasRow}
    (h : processMoveRows macros c rows mAcc sAcc rAcc = .ok (m', s', r')) :
    (∀ x ∈ sAcc, x ∈ s') ∧
    (∀ mv ∈ m', mv ∈ mAcc ∨
      (⟨mv.Character, mv.MoveName, mv.MoveName⟩ : SimpleAliasRow) ∈ s') := by
  induction rows generalizing mAcc sAcc rAcc with
  | nil =>
    unfold processMoveRows at h
    cases h
    exact ⟨fun x hx => hx, fun mv hmv => .inl hmv⟩
  | cons row rest ih =>
    unfold processMoveRows at h
    by_cases hb : row.MoveName = ""
    · rw [if_pos hb] at h
      cases h
    · rw [if_neg hb] at h
      have h2 := except_seq_ok h
      obtain ⟨sAcc2, hS, h3⟩ := except_bind_ok h2
      obtain ⟨rAcc2, hR, h4⟩ := except_bind_ok h3
      obtain ⟨hsub, hmoves⟩ := ih h4
      constructor
      · intro x hx
        exact hsub x (processSimpleTokens_mem hS x (List.mem_append_left _ hx))
      · intro mv hmv
        rcases hmoves mv hmv with hin | hself
        · rcases List.mem_append.mp hin with hold | hnew
          · exact .inl hold
          · have hmv2 : mv = ⟨c, row.MoveName⟩ := by simpa using hnew
            right
            rw [hmv2]
            exact hsub _ (processSimpleTokens_mem hS _
              (List.mem_append_right _ (by simp)))
        · exact .inr hself

theorem processCharacterSheets_self_mem {d : Doc} {macros : List MacroRow}
    {charRows : List CharacterRow} {mAcc : List MoveRec}
    {sAcc : List SimpleAliasRow} {rAcc : List RegexAliasRow}
    {m' : List MoveRec} {s' : List SimpleAliasRow} {r' : List RegexAliasRow}
    (h : processCharacterSheets d macros charRows mAcc sAcc rAcc =
      .ok (m', s', r')) :
    (∀ x ∈ sAcc, x ∈ s') ∧
    (∀ mv ∈ m', mv ∈ mAcc ∨
      (⟨mv.Character, mv.MoveName, mv.MoveName⟩ : SimpleAliasRow) ∈ s') := by
  induction charRows generalizing mAcc sAcc rAcc with
  | nil =>
    unfold processCharacterSheets at h
    cases h
    exact ⟨fun x hx => hx, fun mv hmv => .inl hmv⟩
  | cons ch rest ih =>
    unfold processCharacterSheets at h
    by_cases hb : ch.Name = ""
    · rw [if_pos hb] at h
      cases h
    · rw [if_neg hb] at h
      cases hs : d.sheetByTitle ch.Name with
      | none =>
        rw [hs] at h
        cases h
      | some rows =>
        rw [hs] at h
        obtain ⟨x, hP, h2⟩ := except_bind_ok h
        obtain ⟨m2, s2, r2⟩ := x
        obtain ⟨hsub2, hmv2⟩ := ih h2
        obtain ⟨hsub1, hmv1⟩ := processMoveRows_self_mem hP
        constructor
        · exact fun x hx => hsub2 x (hsub1 x hx)
        · intro mv hmv
          rcases hmv2 mv hmv with hin | hself
          · rcases hmv1 mv hin with hold | hself1
            · exact .inl hold
            · exact .inr (hsub2 _ hself1)
          · exact .inr hself

/-- A catalog produced by a successful import has duplicate-free
(Character, Alias) keys (from the unique index at the bulk insert) and
contains, for every imported move, the self-alias row registered
at import-data.ts lines 162-166. -/
theorem buildTransaction_ok_wf {d : Doc} {cat : Catalog}
    (h : buildTransaction d = .ok cat) :
    (cat.simpleAliases.map (fun r => (r.Character, r.Alias))).Nodup ∧
    ∀ mv ∈ cat.moves,
      (⟨mv.Character, mv.MoveName, mv.MoveName⟩ : SimpleAliasRow) ∈
        cat.simpleAliases := by
  unfold buildTransaction at h
  obtain ⟨chars0, h1, h⟩ := except_bind_ok h
  obtain ⟨chars, h2, h⟩ := except_bind_ok h
  obtain ⟨macros0, h3, h⟩ := except_bind_ok h
  obtain ⟨macros, h4, h⟩ := except_bind_ok h
  obtain ⟨x, h5, h⟩ := except_bind_ok h
  obtain ⟨m1, s1, r1⟩ := x
  cases h
  unfold importMovesAndAliases at h5
  obtain ⟨y, h6, h5⟩ := except_bind_ok h5
  obtain ⟨m0, s0, r0⟩ := y
  obtain ⟨moves1, h7, h5⟩ := except_bind_ok h5
  obtain ⟨simples1, h8, h5⟩ := except_bind_ok h5
  obtain ⟨regexes1, h9, h5⟩ := except_bind_ok h5
  cases h5
  obtain ⟨hm0, _⟩ := bulkCreateUnique_ok h7
  obtain ⟨hs0, hnodup⟩ := bulkCreateUnique_ok h8
  subst hm0
  subst hs0
  refine ⟨hnodup, ?_⟩
  intro mv hmv
  have := (processCharacterSheets_self_mem h6).2 mv hmv
  simpa using this

/-- C3, amended: for every move of a successfully imported catalog whose
character name is fixed by `sanitise` and whose canonical name is fixed by
the full query normalisation, resolving (character, MoveName) hits via the
Simple strategy and returns the move's own name - because the importer
registered the self-alias and the unique index guarantees it is the only
row under that (Character, Alias) key.  (Moves whose canonical names are
altered by the normalisation - non-whitelisted characters, lowercase,
internal whitespace runs - are exempted; see the counterexample.) -/
theorem c3_self_alias_resolves_simple (rt : RegexTestFn) (fs : FuseSearchFn)
    (d : Doc) (cat : Catalog) (fc : List (String × List SimpleAliasRow))
    (mv : MoveRec)
    (himp : buildTransaction d = .ok cat)
    (hmv : mv ∈ cat.moves)
    (hname : normalizeQuery mv.MoveName = mv.MoveName)
    (hchar : sanitise mv.Character = mv.Character) :
    ((resolveQuery rt fs ⟨cat, fc⟩ mv.Character mv.MoveName).1).strategy =
      .simple ∧
    ((resolveQuery rt fs ⟨cat, fc⟩ mv.Character mv.MoveName).1).canonicalName =
      some mv.MoveName := by
  obtain ⟨hnodup, hself⟩ := buildTransaction_ok_wf himp
  have hselfmv := hself mv hmv
  have hsome : (cat.simpleAliases.find?
      (fun r => r.Character = mv.Character && r.Alias = mv.MoveName)).isSome := by
    rw [List.find?_isSome]
    exact ⟨_, hselfmv, by simp⟩
  obtain ⟨row, hrow⟩ := Option.isSome_iff_exists.mp hsome
  have hpred := List.find?_some hrow
  have hmem := List.mem_of_find?_eq_some hrow
  simp only [Bool.and_eq_true, decide_eq_true_eq] at hpred
  have hkey : (fun r : SimpleAliasRow => (r.Character, r.Alias)) row =
      (fun r : SimpleAliasRow => (r.Character, r.Alias))
        ⟨mv.Character, mv.MoveName, mv.MoveName⟩ := by
    simp [hpred.1, hpred.2]
  have hroweq : row = ⟨mv.Character, mv.MoveName, mv.MoveName⟩ :=
    List.inj_on_of_nodup_map hnodup hmem hselfmv hkey
  unfold resolveQuery
  rw [hname, hchar]
  unfold findCanonicalMoveName
  rw [simpleAliasSearch_eq_some_of_find? hrow]
  rw [hroweq]
  exact ⟨rfl, rfl⟩

/-- Witness for `c3_self_alias_resolves_simple`: the imported catalog
`catOld` with its move SWORD. -/
theorem c3_witness :
    ((resolveQuery rtNever fsNever ⟨catOld, []⟩ "VAL" "SWORD").1).strategy =
      .simple ∧
    ((resolveQuery rtNever fsNever ⟨catOld, []⟩ "VAL" "SWORD").1).canonicalName =
      some "SWORD" :=
  c3_self_alias_resolves_simple rtNever fsNever docOldCatalog catOld []
    ⟨"VAL", "SWORD"⟩ (by decide) (by decide) (by decide) (by decide)

/-- C3, counterexample.  The claim quantifies over EVERY move of the
catalog, but the importer performs no normalisation of move names while
the resolver normalises every query, so a move whose canonical name is
altered by the normalisation cannot be found via the Simple strategy under
its own name: the imported move "HI!" queries as "HI" (the "!" is
stripped), which matches no simple alias. -/
theorem c3_counterexample :
    buildTransaction docBangMove = .ok catBangMove ∧
    (⟨"VAL", "HI!"⟩ : MoveRec) ∈ catBangMove.moves ∧
    ((resolveQuery rtNever fsNever ⟨catBangMove, []⟩ "VAL" "HI!").1).strategy ≠
      .simple := by
  decide

end RoboVal
